import Mathlib

/-!
Verification development for the `openapi3` reflection engine
(`openapi3/reflect.go`): a shallow embedding of the operation
assembler, parameter extractor, request-body builder, response builder
and the shared component-schema registry, together with theorems about
the behaviour of those functions.

The external type inspector (`jsonschema-go`'s `Reflect`) is treated as
a collaborator: its outcomes (per-field property schemas, collected
named definitions, nested reflection results) are inputs to the
embedded functions, exactly as the Go code consumes them through
callbacks and returned schemas.
-/

set_option autoImplicit false

namespace OpenAPI3

/-- JSON Schema simple types, as used by `jsonschema-go`. -/
inductive SType where
  | string
  | object
  | integer
  | number
  | boolean
  | array
  | null
  deriving DecidableEq, Repr

/-- Name of a simple type in its JSON serialization. -/
def SType.jsonName : SType → String
  | .string => "string"
  | .object => "object"
  | .integer => "integer"
  | .number => "number"
  | .boolean => "boolean"
  | .array => "array"
  | .null => "null"

/-- OpenAPI `Schema` object, restricted to the fields the reflection
engine reads or writes (`Nullable` stripping, binary string formats,
descriptions). -/
structure Schema where
  type_ : Option SType := none
  format : Option String := none
  nullable : Option Bool := none
  description : Option String := none
  deriving DecidableEq, Repr

/-- OpenAPI `SchemaOrRef`: either an inline schema or a `$ref`. -/
structure SchemaOrRef where
  schema : Option Schema := none
  ref : Option String := none
  deriving DecidableEq, Repr

/-- OpenAPI `MediaType`: schema of one content entry. -/
structure MediaType where
  schema : Option SchemaOrRef := none
  deriving DecidableEq, Repr

/-- The `Nullable` stripping applied to a converted schema
(`if s.Schema != nil { s.Schema.Nullable = nil }`, reflect.go
lines 253-255 and 511-513). -/
def stripNullable (s : SchemaOrRef) : SchemaOrRef :=
  match s with
  | { schema := some sch, ref := r } => { schema := some { sch with nullable := none }, ref := r }
  | other => other

/-- `jsonschema-go`'s `Schema`, restricted to the fields that
`hasJSONBody` strips plus the constraining fields the engine inspects.
`extraConstraints` stands for any remaining serialized schema members
(properties, required, ...), already rendered as raw JSON
key/value pairs by the external inspector. -/
structure JSchema where
  title : Option String := none
  description : Option String := none
  comment : Option String := none
  id : Option String := none
  examples : List String := []
  extraProperties : List (String × String) := []
  types : List SType := []
  format : Option String := none
  extraConstraints : List (String × String) := []
  deriving DecidableEq, Repr

/-- Models `jsonschema-go`'s `Schema.AddType`: append the simple type
unless it is already present. -/
def JSchema.addType (s : JSchema) (t : SType) : JSchema :=
  if t ∈ s.types then s else { s with types := s.types ++ [t] }

/-- Go map read `m[k]`, over the association-list model of a Go
`map[string]V` (keys are unique, first match wins). -/
def getItem {α : Type} : List (String × α) → String → Option α
  | [], _ => none
  | (k0, v0) :: t, k => if k0 = k then some v0 else getItem t k

/-- Go map write `m[k] = v`: replace the value of an existing key,
otherwise append the new entry. -/
def setItem {α : Type} : List (String × α) → String → α → List (String × α)
  | [], k, v => [(k, v)]
  | (k0, v0) :: t, k, v =>
    if k0 = k then (k0, v) :: t else (k0, v0) :: setItem t k v

/-- The document's component-schema map (`Spec.Components.Schemas`),
the Definition Registry of the specification. -/
abbrev Registry := List (String × SchemaOrRef)

/-- `Reflector.collectDefinition` (reflect.go lines 348-357): no-op when
`name` is already present in the component-schema map, otherwise insert
the fragment under `name`. -/
def collectDefinition (reg : Registry) (name : String) (schema : SchemaOrRef) : Registry :=
  if (getItem reg name).isSome then reg else setItem reg name schema

/-- Fold a list of collected definitions through `collectDefinition`,
as `jsonschema.CollectDefinitions(r.collectDefinition)` does for every
named sub-schema met during one reflection call. -/
def collectAll (reg : Registry) (defs : List (String × SchemaOrRef)) : Registry :=
  defs.foldl (fun r nd => collectDefinition r nd.1 nd.2) reg

/-- The accumulating loop of `joinErrors` (reflect.go lines 45-59):
concatenate `", " + err.Error()` for every non-nil error. -/
def joinAux : String → List (Option String) → String
  | acc, [] => acc
  | acc, none :: es => joinAux acc es
  | acc, some m :: es => joinAux (acc ++ ", " ++ m) es

/-- `joinErrors` (reflect.go lines 44-59): join the non-nil errors into
one error, dropping the leading `", "`; nil when every error was nil. -/
def joinErrors (errs : List (Option String)) : Option String :=
  let join := joinAux "" errs
  if join = "" then none else some (String.mk (join.data.drop 2))

/-- Models the Go standard library `net/http.StatusText`: the standard
text for an HTTP status code, `""` for an unknown code. -/
def statusText : Nat → String
  | 200 => "OK"
  | 201 => "Created"
  | 202 => "Accepted"
  | 204 => "No Content"
  | 301 => "Moved Permanently"
  | 302 => "Found"
  | 304 => "Not Modified"
  | 400 => "Bad Request"
  | 401 => "Unauthorized"
  | 403 => "Forbidden"
  | 404 => "Not Found"
  | 409 => "Conflict"
  | 422 => "Unprocessable Entity"
  | 500 => "Internal Server Error"
  | 503 => "Service Unavailable"
  | _ => ""

/-- Models `strings.Split(s, ";")[0]` from the Go standard library: the
part of the string before its first `';'` (the whole string when there
is none). -/
def splitBeforeSemicolon (s : String) : String :=
  String.mk (s.data.takeWhile (fun c => decide (c ≠ ';')))

/-- Models `strings.ToUpper` from the Go standard library: every
character mapped to upper case. -/
def goToUpper (s : String) : String :=
  String.mk (s.data.map Char.toUpper)

/-- Models `strings.Title` from the Go standard library as applied to
the single-word encoding tags of this engine: the first letter is
mapped to upper case. -/
def goTitle (s : String) : String :=
  match s.data with
  | [] => ""
  | c :: cs => String.mk (Char.toUpper c :: cs)

/-- The `tagJSON` constant (reflect.go line 113). -/
def tagJSON : String := "json"

/-- The `tagFormData` constant (reflect.go line 114). -/
def tagFormData : String := "formData"

/-- The `mimeJSON` constant (reflect.go line 115). -/
def mimeJSON : String := "application/json"

/-- The `mimeFormUrlencoded` constant (reflect.go line 116). -/
def mimeFormUrlencoded : String := "application/x-www-form-urlencoded"

/-- The `mimeMultipart` constant (reflect.go line 117). -/
def mimeMultipart : String := "multipart/form-data"

/-- The `xForbidUnknown` vendor-extension name piece (reflect.go
line 226). -/
def xForbidUnknown : String := "x-forbid-unknown-"

/-- `ParameterIn`: the non-body parameter locations of the document
model. -/
inductive ParameterIn where
  | query
  | path
  | cookie
  | header
  deriving DecidableEq, Repr

/-- The string value of a `ParameterIn` constant, as printed by
`%s` in the duplicate-parameter error. -/
def ParameterIn.str : ParameterIn → String
  | .query => "query"
  | .path => "path"
  | .cookie => "cookie"
  | .header => "header"

/-- OpenAPI `Parameter` object, restricted to the fields the extractor
populates. -/
structure Parameter where
  name : String
  in_ : ParameterIn
  description : Option String := none
  required : Option Bool := none
  deprecated : Option Bool := none
  schema : Option SchemaOrRef := none
  content : Option (List (String × MediaType)) := none
  style : Option String := none
  explode : Option Bool := none
  deriving DecidableEq, Repr

/-- One field of the input type as handed to the
`jsonschema.InterceptProperty` callback of `parseParametersIn`
(reflect.go lines 249-333): the resolved property name (after
`PropertyNameMapping` / `PropertyNameTag`), the property schema already
converted to an OpenAPI schema-or-ref, the property description, the
`collectionFormat` auxiliary tag, and the outcomes of the two nested
reflection calls the callback makes (the JSON-object probe with its
collected definitions, and the inline-refs probe), plus the declarative
field options that `refl.PopulateFieldsFromTags` reads from the field
tags. -/
structure ParamField where
  name : String
  schema : SchemaOrRef := {}
  description : Option String := none
  collectionFormat : String := ""
  hasJSONTaggedFields : Bool := false
  jsonReflect : Except String SchemaOrRef := .ok {}
  jsonDefs : List (String × SchemaOrRef) := []
  inlineReflect : Except String JSchema := .ok {}
  tagDescription : Option String := none
  tagRequired : Option Bool := none
  tagDeprecated : Option Bool := none
  populateError : Option String := none

/-- The initial parameter descriptor built at the top of the
`InterceptProperty` callback (reflect.go lines 250-263), with the
`Nullable` marker stripped from the property schema. -/
def baseParam (in_ : ParameterIn) (f : ParamField) : Parameter :=
  let s : SchemaOrRef := stripNullable f.schema
  { name := f.name, in_ := in_, description := f.description, schema := some s, content := none }

/-- The `collectionFormat` switch (reflect.go lines 265-276): the
Swagger 2 collection formats map onto style/explode pairs. -/
def applyCollectionFormat (f : ParamField) (p : Parameter) : Parameter :=
  match f.collectionFormat with
  | "csv" => { p with style := some "form", explode := some false }
  | "ssv" => { p with style := some "spaceDelimited", explode := some false }
  | "pipes" => { p with style := some "pipeDelimited", explode := some false }
  | "multi" => { p with style := some "form", explode := some true }
  | _ => p

/-- `refl.PopulateFieldsFromTags(&p, field.Tag)` (reflect.go
lines 308-311): apply the declarative field options onto the
descriptor; a malformed option value fails the callback. -/
def applyTagFields (f : ParamField) (p : Parameter) : Except String Parameter :=
  match f.populateError with
  | some e => .error e
  | none =>
    .ok { p with
      description := match f.tagDescription with | some d => some d | none => p.description
      required := match f.tagRequired with | some b => some b | none => p.required
      deprecated := match f.tagDeprecated with | some b => some b | none => p.deprecated }

/-- The forced-required rule for path parameters (reflect.go
lines 313-315). -/
def forcePathRequired (in_ : ParameterIn) (p : Parameter) : Parameter :=
  if in_ = ParameterIn.path then { p with required := some true } else p

/-- The body of the `InterceptProperty` callback of `parseParametersIn`
up to (not including) the duplicate check: build the parameter
descriptor for one field and thread the registry through the nested
JSON-object reflection (reflect.go lines 249-315). -/
def buildParameter (in_ : ParameterIn) (f : ParamField) (reg : Registry) :
    Except String (Parameter × Registry) :=
  let p := applyCollectionFormat f (baseParam in_ f)
  if f.hasJSONTaggedFields then
    match f.jsonReflect with
    | .error e => .error e
    | .ok js =>
      let reg := collectAll reg f.jsonDefs
      let p := { p with schema := none, content := some [(mimeJSON, { schema := some js })] }
      (applyTagFields f p).map (fun p2 => (forcePathRequired in_ p2, reg))
  else
    match f.inlineReflect with
    | .error e => .error e
    | .ok ps =>
      let p :=
        if SType.object ∈ ps.types then
          { p with style := some "deepObject", explode := some true }
        else p
      (applyTagFields f p).map (fun p2 => (forcePathRequired in_ p2, reg))

/-- The mutable request-side state: the document's component-schema map
(`r.Spec`), and the operation record fields the request builders write
(`o.Parameters`, the request-body content map, `o.MapOfAnything`). -/
structure ReqState where
  schemas : Registry := []
  parameters : List Parameter := []
  requestBodyContent : List (String × MediaType) := []
  mapOfAnything : List (String × Bool) := []
  deriving DecidableEq, Repr

/-- The per-field loop of `parseParametersIn`: for each enumerated
field, build its descriptor, enforce the (location, name) uniqueness
invariant against the parameters already on the operation
(reflect.go lines 317-332), and append. On any error the loop stops
and already-appended parameters are kept. -/
def paramsLoop (in_ : ParameterIn) : ReqState → List ParamField → ReqState × Option String
  | st, [] => (st, none)
  | st, f :: fs =>
    match buildParameter in_ f st.schemas with
    | .error e => (st, some e)
    | .ok (p, reg) =>
      let st := { st with schemas := reg }
      if st.parameters.any (fun ep => decide (ep.in_ = p.in_ ∧ ep.name = p.name)) then
        (st, some ("parameter " ++ p.name ++ " in " ++ p.in_.str ++ " is already defined"))
      else
        paramsLoop in_ { st with parameters := st.parameters ++ [p] } fs

/-- The reflection outcome of the input type for one parameter
location, as produced by the external type inspector for
`parseParametersIn`: whether the input is a bare slice or map, the
named definitions collected during the traversal, the enumerated
fields carrying the location tag, and whether the aggregate schema
closed its property set (`AdditionalProperties: false`). -/
structure ParamsInput where
  isSliceOrMap : Bool := false
  outerDefs : List (String × SchemaOrRef) := []
  fields : List ParamField := []
  additionalPropertiesBoolFalse : Bool := false

/-- `Reflector.parseParametersIn` (reflect.go lines 229-346): skip bare
slices/maps, run the reflection (collecting named definitions and
processing each tagged field through the property callback), and set
the `x-forbid-unknown-<in>` vendor extension when the aggregate schema
forbids unknown properties. -/
def parseParametersIn (st : ReqState) (inp : ParamsInput) (in_ : ParameterIn) :
    ReqState × Option String :=
  if inp.isSliceOrMap then (st, none)
  else
    let st := { st with schemas := collectAll st.schemas inp.outerDefs }
    match paramsLoop in_ st inp.fields with
    | (st2, some e) => (st2, some e)
    | (st2, none) =>
      let st3 :=
        if inp.additionalPropertiesBoolFalse then
          { st2 with mapOfAnything := setItem st2.mapOfAnything (xForbidUnknown ++ in_.str) true }
        else st2
      (st3, none)

/-- The methods that should not have a request body (reflect.go
lines 134-143): the uppercased method is matched against GET, HEAD,
DELETE and TRACE. -/
def bodilessMethod (httpMethod : String) : Bool :=
  let m := goToUpper httpMethod
  decide (m = "GET") || decide (m = "HEAD") || decide (m = "DELETE") || decide (m = "TRACE")

/-- One value handed to the `jsonschema.InterceptType` callback of
`parseRequestBody` (reflect.go lines 170-192): whether it is a
`*multipart.File` or `*multipart.FileHeader`, and its in-progress
schema. -/
structure BodyFieldVal where
  isMultipartFile : Bool := false
  isMultipartFileHeader : Bool := false
  schema : JSchema := {}

/-- The `InterceptType` callback body of `parseRequestBody`
(reflect.go lines 170-192): a file-upload value has its schema forced
to a binary-format string and reports `found`; the `found` flag is what
sets `hasFileUpload`. -/
def interceptType (v : BodyFieldVal) : JSchema × Bool :=
  if v.isMultipartFile || v.isMultipartFileHeader then
    ({ v.schema.addType SType.string with format := some "binary" }, true)
  else
    (v.schema, false)

/-- The reflection outcome of the input type for one request-body
encoding, as produced by the external type inspector for
`parseRequestBody`: the root schema (already converted to an OpenAPI
schema-or-ref through `FromJSONSchema`), the named definitions of
`schema.Definitions`, and the values passed to the `InterceptType`
callback during the traversal. -/
structure BodyReflectResult where
  rootSchema : SchemaOrRef := {}
  definitions : List (String × SchemaOrRef) := []
  fieldValues : List BodyFieldVal := []

/-- The request-body-relevant facts about the input type: the
`RequestBodyEnforcer` marker capability (reflect.go lines 124-126),
the per-tag `refl.HasTaggedFields` probes, the bare/embedded
slice-or-map probes, and the reflection collaborator (a function of the
property-name tag and the name mapping). -/
structure BodyInput where
  forceRequestBody : Bool := false
  hasTaggedFields : String → Bool := fun _ => false
  isSliceOrMap : Bool := false
  hasEmbeddedSliceOrMap : Bool := false
  reflect : String → List (String × String) → Except String BodyReflectResult :=
    fun _ _ => .ok {}

/-- `Reflector.parseRequestBody` (reflect.go lines 128-221): skip
bodiless methods unless the input forces a request body, skip inputs
with nothing to contribute for this encoding, reflect the input,
publish every named definition under the encoding-derived prefix with a
plain map write, upgrade form-urlencoded to multipart when a file
upload was seen, and write the content entry under the resolved MIME
type. -/
def parseRequestBody (st : ReqState) (inp : BodyInput) (tag mime httpMethod : String)
    (mapping : List (String × String)) : ReqState × Option String :=
  if bodilessMethod httpMethod && !inp.forceRequestBody then (st, none)
  else
    let hasTaggedFields := inp.hasTaggedFields tag
    if !hasTaggedFields && decide (mapping.length = 0) && decide (tag ≠ tagJSON) then (st, none)
    else if !hasTaggedFields && decide (mapping.length = 0) && !inp.isSliceOrMap
        && !inp.hasEmbeddedSliceOrMap then (st, none)
    else
      let defnPfx := if tag ≠ tagJSON then goTitle tag else ""
      match inp.reflect tag mapping with
      | .error e => (st, some e)
      | .ok res =>
        let hasFileUpload := res.fieldValues.any (fun v => (interceptType v).2)
        let mt : MediaType := { schema := some res.rootSchema }
        let schemas := res.definitions.foldl
          (fun r nd => setItem r (defnPfx ++ nd.1) nd.2) st.schemas
        let mime2 := if mime = mimeFormUrlencoded ∧ hasFileUpload = true then mimeMultipart else mime
        ({ st with schemas := schemas,
                   requestBodyContent := setItem st.requestBodyContent mime2 mt }, none)

/-- A response `Header` object, restricted to the fields
`parseResponseHeader` populates. -/
structure Header where
  description : Option String := none
  deprecated : Option Bool := none
  schema : Option SchemaOrRef := none
  deriving DecidableEq, Repr

/-- An OpenAPI `Response` object: description, content map and header
map. -/
structure Response where
  description : String := ""
  content : List (String × MediaType) := []
  headers : List (String × Header) := []
  deriving DecidableEq, Repr

/-- The outcome of reflecting the output type for the response body
(`parseJSONResponse`, reflect.go lines 498-506): root schema already
converted to an OpenAPI schema-or-ref, collected named definitions,
and the root schema description. -/
structure RespBodyReflection where
  rootSchema : SchemaOrRef := {}
  definitions : List (String × SchemaOrRef) := []
  description : Option String := none

/-- The outcome of reflecting the output type for response headers
(`parseResponseHeader`, reflect.go lines 359-407): the header map built
by the property callback, and the root schema description. -/
structure RespHeaderReflection where
  headers : List (String × Header) := []
  description : Option String := none

/-- The reflection outcomes for one output type, as produced by the
external type inspector: the plain reflection used by `hasJSONBody`,
the body reflection and the header reflection. -/
structure OutputReflection where
  plain : Except String JSchema := .ok {}
  bodyReflect : Except String RespBodyReflection := .ok {}
  headerReflect : Except String RespHeaderReflection := .ok {}

/-- The model of `OperationContext` (reflect.go lines 70-89), carrying
on the request side the per-location reflection outcomes of the input
type and on the response side the reflection outcomes of the output
type. -/
structure OperationContext where
  paramsQuery : ParamsInput := {}
  paramsPath : ParamsInput := {}
  paramsCookie : ParamsInput := {}
  paramsHeader : ParamsInput := {}
  body : BodyInput := {}
  httpMethod : String := ""
  reqFormDataMapping : List (String × String) := []
  output : Option OutputReflection := none
  httpStatus : Nat := 0
  respContentType : String := ""

/-- The six sequential builder calls of `SetupRequest` (reflect.go
lines 92-101), threading the shared state left to right exactly as the
Go argument evaluation does, and returning the six individual
errors. -/
def setupRequestRun (st : ReqState) (oc : OperationContext) : ReqState × List (Option String) :=
  let r1 := parseParametersIn st oc.paramsQuery ParameterIn.query
  let r2 := parseParametersIn r1.1 oc.paramsPath ParameterIn.path
  let r3 := parseParametersIn r2.1 oc.paramsCookie ParameterIn.cookie
  let r4 := parseParametersIn r3.1 oc.paramsHeader ParameterIn.header
  let r5 := parseRequestBody r4.1 oc.body tagJSON mimeJSON oc.httpMethod []
  let r6 := parseRequestBody r5.1 oc.body tagFormData mimeFormUrlencoded oc.httpMethod
    oc.reqFormDataMapping
  (r6.1, [r1.2, r2.2, r3.2, r4.2, r5.2, r6.2])

/-- `Reflector.SetupRequest` (reflect.go lines 92-101): the joined
error of the four parameter extractions and the two request-body
builds. -/
def SetupRequest (st : ReqState) (oc : OperationContext) : ReqState × Option String :=
  let r := setupRequestRun st oc
  (r.1, joinErrors r.2)

/-- Render a JSON string literal. -/
def jsonQuote (s : String) : String :=
  "\"" ++ s ++ "\""

/-- The serialized members of a `JSchema`, in the order the external
marshaller emits them, each rendered as one `key:value` string. -/
def jschemaMembers (s : JSchema) : List String :=
  (match s.title with | some t => [jsonQuote "title" ++ ":" ++ jsonQuote t] | none => []) ++
  (match s.description with | some d => [jsonQuote "description" ++ ":" ++ jsonQuote d] | none => []) ++
  (match s.comment with | some c => [jsonQuote "$comment" ++ ":" ++ jsonQuote c] | none => []) ++
  (match s.id with | some i => [jsonQuote "$id" ++ ":" ++ jsonQuote i] | none => []) ++
  (match s.examples with
   | [] => []
   | es => [jsonQuote "examples" ++ ":[" ++ String.intercalate "," (es.map jsonQuote) ++ "]"]) ++
  s.extraProperties.map (fun kv => jsonQuote kv.1 ++ ":" ++ kv.2) ++
  (match s.types with
   | [] => []
   | [t] => [jsonQuote "type" ++ ":" ++ jsonQuote t.jsonName]
   | ts => [jsonQuote "type" ++ ":[" ++ String.intercalate "," (ts.map (fun t => jsonQuote t.jsonName)) ++ "]"]) ++
  (match s.format with | some fm => [jsonQuote "format" ++ ":" ++ jsonQuote fm] | none => []) ++
  s.extraConstraints.map (fun kv => jsonQuote kv.1 ++ ":" ++ kv.2)

/-- Models `json.Marshal` on a `jsonschema-go` schema: a JSON object
joining the present members. -/
def marshalJSchema (s : JSchema) : String :=
  "\x7b" ++ String.intercalate "," (jschemaMembers s) ++ "\x7d"

/-- The core of `Reflector.hasJSONBody` (reflect.go lines 418-442):
strip the non-constraining fields from the reflected schema, marshal
it, and report a meaningful body unless the result is the empty schema
or the bare object schema. -/
def hasJSONBodySchema (schema : JSchema) : Bool :=
  let s := { schema with
    title := none, description := none, comment := none,
    extraProperties := [], id := none, examples := [] }
  let j := marshalJSchema s
  !(decide (j = "\x7b\x7d")) && !(decide (j = "\x7b\"type\":\"object\"\x7d"))

/-- `Reflector.parseJSONResponse` (reflect.go lines 489-536): skip
when the output exposes no meaningful schema (an error from the
`hasJSONBody` probe falls through to the body step), otherwise reflect
the output, collect its named definitions through `collectDefinition`,
strip the `Nullable` marker, default the content type to JSON, store
the content entry, and adopt the schema description when the response
has none. -/
def parseJSONResponse (schemas : Registry) (resp : Response) (out : OutputReflection)
    (contentType : String) : Except String (Registry × Response) :=
  let skip := match out.plain with
    | .ok js => !(hasJSONBodySchema js)
    | .error _ => false
  if skip then .ok (schemas, resp)
  else
    match out.bodyReflect with
    | .error e => .error e
    | .ok br =>
      let schemas := collectAll schemas br.definitions
      let oai : SchemaOrRef := stripNullable br.rootSchema
      let ct := if contentType = "" then mimeJSON else contentType
      let resp := { resp with content := setItem resp.content ct { schema := some oai } }
      let resp :=
        match br.description with
        | some d => if resp.description = "" then { resp with description := d } else resp
        | none => resp
      .ok (schemas, resp)

/-- `Reflector.parseResponseHeader` (reflect.go lines 359-407):
replace the response's header map with the reflected headers and adopt
the root schema description when the response has none. -/
def parseResponseHeader (resp : Response) (out : OutputReflection) : Except String Response :=
  match out.headerReflect with
  | .error e => .error e
  | .ok hr =>
    let resp := { resp with headers := hr.headers }
    match hr.description with
    | some d => .ok (if resp.description = "" then { resp with description := d } else resp)
    | none => .ok resp

/-- `Reflector.ensureResponseContentType` (reflect.go lines 477-487):
when the response has no entry for the content type yet, add one with
an empty untyped schema. -/
def ensureResponseContentType (resp : Response) (contentType : String) : Response :=
  match getItem resp.content contentType with
  | some _ => resp
  | none =>
    { resp with content := setItem resp.content contentType { schema := some { schema := some {} } } }

/-- `Reflector.SetupResponse` (reflect.go lines 445-475): when an
output type is present, trim the requested content type at its first
`';'`, run the body and header steps, and ensure the requested content
type is advertised; in every case fall back to the standard status
text when no description was set, and write the response into the
operation's response map under the stringified status code. -/
def SetupResponse (schemas : Registry) (responses : List (String × Response))
    (oc : OperationContext) : Except String (Registry × List (String × Response)) :=
  let resp : Response := {}
  match oc.output with
  | none =>
    let resp := if resp.description = "" then { resp with description := statusText oc.httpStatus } else resp
    .ok (schemas, setItem responses (toString oc.httpStatus) resp)
  | some out =>
    let ct := splitBeforeSemicolon oc.respContentType
    match parseJSONResponse schemas resp out ct with
    | .error e => .error e
    | .ok (schemas2, resp1) =>
      match parseResponseHeader resp1 out with
      | .error e => .error e
      | .ok resp2 =>
        let resp3 := if ct ≠ "" then ensureResponseContentType resp2 ct else resp2
        let resp4 :=
          if resp3.description = "" then { resp3 with description := statusText oc.httpStatus }
          else resp3
        .ok (schemas2, setItem responses (toString oc.httpStatus) resp4)

/-! ## Map and registry lemmas -/

theorem getItem_setItem_self {α : Type} (m : List (String × α)) (k : String) (v : α) :
    getItem (setItem m k v) k = some v := by
  induction m with
  | nil => simp [setItem, getItem]
  | cons hd t ih =>
    obtain ⟨k0, v0⟩ := hd
    by_cases hk : k0 = k
    · simp only [setItem, if_pos hk, getItem]
    · simp only [setItem, if_neg hk, getItem]
      exact ih

theorem getItem_setItem_ne {α : Type} (m : List (String × α)) (k k2 : String) (v : α)
    (h : k2 ≠ k) : getItem (setItem m k v) k2 = getItem m k2 := by
  induction m with
  | nil =>
    simp only [setItem, getItem]
    rw [if_neg (Ne.symm h)]
  | cons hd t ih =>
    obtain ⟨k0, v0⟩ := hd
    by_cases hk : k0 = k
    · simp only [setItem, if_pos hk, getItem]
      have hne : ¬ k0 = k2 := by
        intro hh
        apply h
        rw [← hh]
        exact hk
      rw [if_neg hne, if_neg hne]
    · simp only [setItem, if_neg hk, getItem]
      by_cases hk2 : k0 = k2
      · rw [if_pos hk2, if_pos hk2]
      · rw [if_neg hk2, if_neg hk2]
        exact ih

theorem collectDefinition_preserves (reg : Registry) (n n2 : String) (s v : SchemaOrRef)
    (h : getItem reg n = some v) : getItem (collectDefinition reg n2 s) n = some v := by
  unfold collectDefinition
  by_cases hx : (getItem reg n2).isSome
  · simp [hx, h]
  · have hne : n ≠ n2 := by
      intro he
      subst he
      simp [h] at hx
    simp [hx, getItem_setItem_ne reg n2 n s hne, h]

theorem collectAll_preserves (defs : List (String × SchemaOrRef)) (reg : Registry)
    (n : String) (v : SchemaOrRef) (h : getItem reg n = some v) :
    getItem (collectAll reg defs) n = some v := by
  induction defs generalizing reg with
  | nil => simpa [collectAll] using h
  | cons d ds ih =>
    have h2 := collectDefinition_preserves reg n d.1 d.2 v h
    simpa [collectAll] using ih (collectDefinition reg d.1 d.2) h2

theorem except_map_pair_ok (in_ : ParameterIn) (f : ParamField) (p q : Parameter)
    (reg2 reg3 : Registry)
    (hb : Except.map (fun p2 => (forcePathRequired in_ p2, reg3)) (applyTagFields f p) =
      .ok (q, reg2)) :
    reg2 = reg3 ∧ ∃ p2, applyTagFields f p = .ok p2 ∧ q = forcePathRequired in_ p2 := by
  cases h : applyTagFields f p with
  | error e =>
    rw [h] at hb
    exact absurd hb (by simp [Except.map])
  | ok p2 =>
    rw [h] at hb
    simp only [Except.map, Except.ok.injEq, Prod.mk.injEq] at hb
    exact ⟨hb.2.symm, p2, rfl, hb.1.symm⟩

theorem buildParameter_cases (in_ : ParameterIn) (f : ParamField)
    (reg reg2 : Registry) (p : Parameter)
    (hb : buildParameter in_ f reg = .ok (p, reg2)) :
    reg2 = reg ∨ reg2 = collectAll reg f.jsonDefs := by
  unfold buildParameter at hb
  by_cases hj : f.hasJSONTaggedFields = true
  · rw [if_pos hj] at hb
    split at hb
    · exact absurd hb (by simp)
    · exact Or.inr (except_map_pair_ok in_ f _ p reg2 _ hb).1
  · rw [if_neg hj] at hb
    split at hb
    · exact absurd hb (by simp)
    · exact Or.inl (except_map_pair_ok in_ f _ p reg2 _ hb).1

theorem buildParameter_schemas_preserves (in_ : ParameterIn) (f : ParamField)
    (reg reg2 : Registry) (p : Parameter) (n : String) (v : SchemaOrRef)
    (hb : buildParameter in_ f reg = .ok (p, reg2)) (h : getItem reg n = some v) :
    getItem reg2 n = some v := by
  rcases buildParameter_cases in_ f reg reg2 p hb with hc | hc
  · rw [hc]; exact h
  · rw [hc]; exact collectAll_preserves f.jsonDefs reg n v h

theorem paramsLoop_schemas_preserves (in_ : ParameterIn) (fs : List ParamField)
    (st : ReqState) (n : String) (v : SchemaOrRef) (h : getItem st.schemas n = some v) :
    getItem (paramsLoop in_ st fs).1.schemas n = some v := by
  induction fs generalizing st with
  | nil => simpa [paramsLoop] using h
  | cons f fs ih =>
    cases hb : buildParameter in_ f st.schemas with
    | error e => simpa [paramsLoop, hb] using h
    | ok pr =>
      obtain ⟨p, reg⟩ := pr
      have hpres := buildParameter_schemas_preserves in_ f st.schemas reg p n v hb h
      simp only [paramsLoop, hb]
      split
      · exact hpres
      · exact ih { st with schemas := reg, parameters := st.parameters ++ [p] } hpres

theorem parseParametersIn_schemas_preserves (st : ReqState) (inp : ParamsInput)
    (in_ : ParameterIn) (n : String) (v : SchemaOrRef) (h : getItem st.schemas n = some v) :
    getItem (parseParametersIn st inp in_).1.schemas n = some v := by
  unfold parseParametersIn
  by_cases hs : inp.isSliceOrMap
  · simpa [hs] using h
  · have h1 : getItem (collectAll st.schemas inp.outerDefs) n = some v :=
      collectAll_preserves inp.outerDefs st.schemas n v h
    have h2 := paramsLoop_schemas_preserves in_ inp.fields
      { st with schemas := collectAll st.schemas inp.outerDefs } n v h1
    cases hl : paramsLoop in_ { st with schemas := collectAll st.schemas inp.outerDefs } inp.fields with
    | mk st2 e =>
      rw [hl] at h2
      cases e with
      | none =>
        by_cases ha : inp.additionalPropertiesBoolFalse <;> simpa [hs, hl, ha] using h2
      | some m => simpa [hs, hl] using h2

theorem parseJSONResponse_schemas_preserves (schemas s2 : Registry) (resp r2 : Response)
    (out : OutputReflection) (ct : String) (n : String) (v : SchemaOrRef)
    (hp : parseJSONResponse schemas resp out ct = .ok (s2, r2))
    (h : getItem schemas n = some v) : getItem s2 n = some v := by
  simp only [parseJSONResponse] at hp
  split at hp
  · simp only [Except.ok.injEq, Prod.mk.injEq] at hp
    rw [← hp.1]
    exact h
  · split at hp
    · exact absurd hp (by simp)
    · rename_i br heq
      split at hp <;>
        · simp only [Except.ok.injEq, Prod.mk.injEq] at hp
          rw [← hp.1]
          exact collectAll_preserves br.definitions schemas n v h

theorem setupResponse_schemas_preserves (schemas : Registry)
    (responses : List (String × Response)) (oc : OperationContext)
    (schemas2 : Registry) (responses2 : List (String × Response))
    (n : String) (v : SchemaOrRef)
    (hr : SetupResponse schemas responses oc = .ok (schemas2, responses2))
    (h : getItem schemas n = some v) : getItem schemas2 n = some v := by
  simp only [SetupResponse] at hr
  split at hr
  · simp only [Except.ok.injEq, Prod.mk.injEq] at hr
    rw [← hr.1]
    exact h
  · rename_i out
    split at hr
    · exact absurd hr (by simp)
    · rename_i sc resp1 heq
      split at hr
      · exact absurd hr (by simp)
      · rename_i resp2 heq2
        simp only [Except.ok.injEq, Prod.mk.injEq] at hr
        rw [← hr.1]
        exact parseJSONResponse_schemas_preserves _ _ _ _ _ _ _ _ heq h

/-! ## Claim theorems -/

/-- C1 counterexample: the claim that no later write from any builder
replaces an existing Definition Registry entry is false — the
request-body builder publishes its definitions with a plain map write
that bypasses `collectDefinition`. Starting from a registry holding a
first-seen string fragment under `"T"`, a JSON request-body build whose
traversal yields a structurally different fragment for `"T"` replaces
the entry. -/
theorem requestBody_overwrites_registry_counterexample :
    getItem (parseRequestBody
        { schemas := collectDefinition [] "T" { schema := some { type_ := some SType.string } } }
        { hasTaggedFields := fun t => decide (t = "json"),
          reflect := fun _ _ => .ok
            { rootSchema := { ref := some "#/components/schemas/T" },
              definitions := [("T", { schema := some { type_ := some SType.object } })] } }
        tagJSON mimeJSON "POST" []).1.schemas "T" =
      some { schema := some { type_ := some SType.object } } ∧
    getItem (collectDefinition [] "T" { schema := some { type_ := some SType.string } }) "T" =
      some { schema := some { type_ := some SType.string } } ∧
    ({ schema := some { type_ := some SType.string } } : SchemaOrRef) ≠
      { schema := some { type_ := some SType.object } } := by
  refine ⟨by decide, by decide, by decide⟩

/-- C1 (amended): `collectDefinition` is first-write-wins: once an
entry for a name exists in the component-schema map, no later write
through `collectDefinition` replaces it, and collecting the same name
twice leaves exactly the first-seen fragment; parameter extraction and
response building, whose registry writes all pass through
`collectDefinition`, therefore never replace an existing entry. (The
request-body builder bypasses this choke point; see the
counterexample.) -/
theorem collectDefinition_first_write_wins :
    (∀ (reg : Registry) (name name2 : String) (s v : SchemaOrRef),
        getItem reg name = some v →
        getItem (collectDefinition reg name2 s) name = some v) ∧
    (∀ (reg : Registry) (name : String) (a b : SchemaOrRef),
        collectDefinition (collectDefinition reg name a) name b =
          collectDefinition reg name a) ∧
    (∀ (st : ReqState) (inp : ParamsInput) (in_ : ParameterIn) (name : String) (v : SchemaOrRef),
        getItem st.schemas name = some v →
        getItem (parseParametersIn st inp in_).1.schemas name = some v) ∧
    (∀ (schemas : Registry) (responses : List (String × Response)) (oc : OperationContext)
        (schemas2 : Registry) (responses2 : List (String × Response))
        (name : String) (v : SchemaOrRef),
        SetupResponse schemas responses oc = .ok (schemas2, responses2) →
        getItem schemas name = some v →
        getItem schemas2 name = some v) := by
  refine ⟨fun reg name name2 s v h => collectDefinition_preserves reg name name2 s v h,
    fun reg name a b => ?_,
    fun st inp in_ name v h => parseParametersIn_schemas_preserves st inp in_ name v h,
    fun schemas responses oc schemas2 responses2 name v hr h =>
      setupResponse_schemas_preserves schemas responses oc schemas2 responses2 name v hr h⟩
  unfold collectDefinition
  by_cases hx : (getItem reg name).isSome
  · simp [hx]
  · simp [hx, getItem_setItem_self]

/-- Witness for the amended C1 theorem at concrete inputs. -/
theorem collectDefinition_first_write_wins_witness :
    getItem (collectDefinition (collectDefinition [] "T"
        { schema := some { type_ := some SType.string } }) "T"
        { schema := some { type_ := some SType.object } }) "T" =
      some { schema := some { type_ := some SType.string } } :=
  collectDefinition_first_write_wins.1
    (collectDefinition [] "T" { schema := some { type_ := some SType.string } })
    "T" "T" { schema := some { type_ := some SType.object } }
    { schema := some { type_ := some SType.string } } (by decide)

/-- C3: for every HTTP method whose upper-cased form is GET, HEAD,
DELETE or TRACE, and every input type that does not implement the
force-request-body marker, `parseRequestBody` changes nothing and
returns no error, regardless of tagged fields, mappings, tag or MIME
type; when the input implements the marker, the build proceeds exactly
as for a body-carrying method such as POST. -/
theorem bodiless_methods_skip_request_body :
    ∀ (st : ReqState) (inp : BodyInput) (tag mime httpMethod : String)
      (mapping : List (String × String)),
      (goToUpper httpMethod = "GET" ∨ goToUpper httpMethod = "HEAD" ∨
        goToUpper httpMethod = "DELETE" ∨ goToUpper httpMethod = "TRACE") →
      (inp.forceRequestBody = false →
        parseRequestBody st inp tag mime httpMethod mapping = (st, none)) ∧
      (inp.forceRequestBody = true →
        parseRequestBody st inp tag mime httpMethod mapping =
          parseRequestBody st inp tag mime "POST" mapping) := by
  intro st inp tag mime httpMethod mapping hm
  constructor
  · intro hf
    have hbm : bodilessMethod httpMethod = true := by
      rcases hm with h | h | h | h <;> simp [bodilessMethod, h]
    simp [parseRequestBody, hbm, hf]
  · intro hf
    simp [parseRequestBody, hf]

/-- Witness for C3 at a concrete input: a lower-case `delete` method
with body-tagged JSON fields and no marker produces no request-body
entry and no error. -/
theorem bodiless_methods_skip_request_body_witness :
    (({ forceRequestBody := false,
        hasTaggedFields := fun t => decide (t = "json") } : BodyInput).forceRequestBody = false →
      parseRequestBody {}
        { forceRequestBody := false, hasTaggedFields := fun t => decide (t = "json") }
        tagJSON mimeJSON "delete" [] = ({}, none)) ∧
    (({ forceRequestBody := false,
        hasTaggedFields := fun t => decide (t = "json") } : BodyInput).forceRequestBody = true →
      parseRequestBody {}
        { forceRequestBody := false, hasTaggedFields := fun t => decide (t = "json") }
        tagJSON mimeJSON "delete" [] =
        parseRequestBody {}
          { forceRequestBody := false, hasTaggedFields := fun t => decide (t = "json") }
          tagJSON mimeJSON "POST" []) :=
  bodiless_methods_skip_request_body {}
    { forceRequestBody := false, hasTaggedFields := fun t => decide (t = "json") }
    tagJSON mimeJSON "delete" [] (by decide)

theorem applyCollectionFormat_name (f : ParamField) (p : Parameter) :
    (applyCollectionFormat f p).name = p.name := by
  unfold applyCollectionFormat
  split <;> rfl

theorem applyCollectionFormat_in (f : ParamField) (p : Parameter) :
    (applyCollectionFormat f p).in_ = p.in_ := by
  unfold applyCollectionFormat
  split <;> rfl

/-- A field whose declarative data lets every step of the property
callback succeed: the tag population has no error and the nested
reflection relevant for it returned a schema. -/
def fieldOk (f : ParamField) : Bool :=
  decide (f.populateError = none) &&
  (if f.hasJSONTaggedFields then
    (match f.jsonReflect with | .ok _ => true | .error _ => false)
  else
    (match f.inlineReflect with | .ok _ => true | .error _ => false))

theorem fieldOk_spec (f : ParamField) (h : fieldOk f = true) :
    f.populateError = none ∧
    (f.hasJSONTaggedFields = true → ∃ js, f.jsonReflect = .ok js) ∧
    (¬ f.hasJSONTaggedFields = true → ∃ ps, f.inlineReflect = .ok ps) := by
  unfold fieldOk at h
  rw [Bool.and_eq_true] at h
  rcases h with ⟨h1, h2⟩
  refine ⟨of_decide_eq_true h1, ?_, ?_⟩
  · intro hj
    rw [if_pos hj] at h2
    cases hx : f.jsonReflect with
    | ok js => exact ⟨js, rfl⟩
    | error e =>
      rw [hx] at h2
      simp at h2
  · intro hj
    rw [if_neg hj] at h2
    cases hx : f.inlineReflect with
    | ok ps => exact ⟨ps, rfl⟩
    | error e =>
      rw [hx] at h2
      simp at h2

theorem buildParameter_ok_of_fieldOk (in_ : ParameterIn) (f : ParamField) (reg : Registry)
    (h : fieldOk f = true) :
    ∃ p reg2, buildParameter in_ f reg = .ok (p, reg2) ∧ p.name = f.name ∧ p.in_ = in_ := by
  obtain ⟨hpop, hjs, hps⟩ := fieldOk_spec f h
  by_cases hj : f.hasJSONTaggedFields = true
  · obtain ⟨js, hjr⟩ := hjs hj
    unfold buildParameter
    rw [if_pos hj, hjr]
    simp only [applyTagFields, hpop, Except.map]
    refine ⟨_, _, rfl, ?_, ?_⟩
    · by_cases hp : in_ = ParameterIn.path <;>
        simp [forcePathRequired, hp, applyCollectionFormat_name, baseParam]
    · by_cases hp : in_ = ParameterIn.path <;>
        simp [forcePathRequired, hp, applyCollectionFormat_in, baseParam]
  · obtain ⟨ps, hir⟩ := hps hj
    unfold buildParameter
    rw [if_neg hj, hir]
    simp only [applyTagFields, hpop, Except.map]
    by_cases ho : SType.object ∈ ps.types
    · rw [if_pos ho]
      refine ⟨_, _, rfl, ?_, ?_⟩
      · by_cases hp : in_ = ParameterIn.path <;>
          simp [forcePathRequired, hp, applyCollectionFormat_name, baseParam]
      · by_cases hp : in_ = ParameterIn.path <;>
          simp [forcePathRequired, hp, applyCollectionFormat_in, baseParam]
    · rw [if_neg ho]
      refine ⟨_, _, rfl, ?_, ?_⟩
      · by_cases hp : in_ = ParameterIn.path <;>
          simp [forcePathRequired, hp, applyCollectionFormat_name, baseParam]
      · by_cases hp : in_ = ParameterIn.path <;>
          simp [forcePathRequired, hp, applyCollectionFormat_in, baseParam]

theorem paramsLoop_prefix (in_ : ParameterIn) (fs : List ParamField) (st : ReqState) :
    st.parameters <+: (paramsLoop in_ st fs).1.parameters := by
  induction fs generalizing st with
  | nil => simp [paramsLoop]
  | cons f fs ih =>
    cases hb : buildParameter in_ f st.schemas with
    | error e => simp [paramsLoop, hb]
    | ok pr =>
      obtain ⟨p, reg⟩ := pr
      simp only [paramsLoop, hb]
      split
      · exact List.prefix_refl _
      · exact List.IsPrefix.trans (List.prefix_append _ _)
          (ih { st with schemas := reg, parameters := st.parameters ++ [p] })

theorem paramsLoop_error_shape (in_ : ParameterIn) (fs : List ParamField) :
    ∀ (st : ReqState) (m : String), (∀ f ∈ fs, fieldOk f = true) →
      (paramsLoop in_ st fs).2 = some m →
      ∃ f ∈ fs, m = "parameter " ++ f.name ++ " in " ++ in_.str ++ " is already defined" := by
  induction fs with
  | nil =>
    intro st m _ h
    simp [paramsLoop] at h
  | cons f fs ih =>
    intro st m hall h
    obtain ⟨p, reg, hb, hname, hin⟩ :=
      buildParameter_ok_of_fieldOk in_ f st.schemas (hall f (List.mem_cons_self f fs))
    simp only [paramsLoop, hb] at h
    split at h
    · simp only [Option.some.injEq] at h
      exact ⟨f, List.mem_cons_self f fs, by rw [← h, hname, hin]⟩
    · obtain ⟨f2, hf2, hm⟩ := ih _ m (fun g hg => hall g (List.mem_cons_of_mem f hg)) h
      exact ⟨f2, List.mem_cons_of_mem f hf2, hm⟩

theorem paramsLoop_collision_isSome (in_ : ParameterIn) (fs : List ParamField) :
    ∀ st : ReqState, (∀ f ∈ fs, fieldOk f = true) →
      (∃ f ∈ fs, ∃ ep ∈ st.parameters, ep.in_ = in_ ∧ ep.name = f.name) →
      ((paramsLoop in_ st fs).2).isSome = true := by
  induction fs with
  | nil =>
    intro st _ hcol
    rcases hcol with ⟨f, hf, _⟩
    simp at hf
  | cons f fs ih =>
    intro st hall hcol
    obtain ⟨p, reg, hb, hname, hin⟩ :=
      buildParameter_ok_of_fieldOk in_ f st.schemas (hall f (List.mem_cons_self f fs))
    simp only [paramsLoop, hb]
    split
    · simp
    · rename_i hnd
      rcases hcol with ⟨g, hg, ep, hep, hepin, hepname⟩
      rcases List.mem_cons.mp hg with hgf | hgfs
      · exfalso
        apply hnd
        simp only [List.any_eq_true, decide_eq_true_eq]
        refine ⟨ep, hep, by rw [hepin, hin], ?_⟩
        rw [hepname, hgf, hname]
      · apply ih
        · intro g2 hg2
          exact hall g2 (List.mem_cons_of_mem f hg2)
        · exact ⟨g, hgfs, ep, List.mem_append_left _ hep, hepin, hepname⟩

theorem paramsLoop_dup_isSome (in_ : ParameterIn) (fs : List ParamField) :
    ∀ st : ReqState, (∀ f ∈ fs, fieldOk f = true) →
      ¬ (fs.map ParamField.name).Nodup →
      ((paramsLoop in_ st fs).2).isSome = true := by
  induction fs with
  | nil =>
    intro st _ hnd
    simp at hnd
  | cons f fs ih =>
    intro st hall hnd
    obtain ⟨p, reg, hb, hname, hin⟩ :=
      buildParameter_ok_of_fieldOk in_ f st.schemas (hall f (List.mem_cons_self f fs))
    simp only [paramsLoop, hb]
    split
    · simp
    · rw [List.map_cons, List.nodup_cons] at hnd
      rcases not_and_or.mp hnd with h1 | h2
      · rw [not_not] at h1
        obtain ⟨g, hg, hgname⟩ := List.mem_map.mp h1
        apply paramsLoop_collision_isSome
        · intro g2 hg2
          exact hall g2 (List.mem_cons_of_mem f hg2)
        · refine ⟨g, hg, p, List.mem_append_right _ (List.mem_cons_self p []), hin, ?_⟩
          rw [hname, ← hgname]
      · exact ih _ (fun g2 hg2 => hall g2 (List.mem_cons_of_mem f hg2)) h2

/-- C2: when two fields of the input type resolve to the same parameter
name in one location (and every field's own data is well-formed),
parameter extraction for that location fails, the error names the
offending parameter name and the location, and the parameters already
appended to the operation before the duplicate was detected remain on
the operation (no rollback). -/
theorem duplicate_parameter_aborts :
    ∀ (st : ReqState) (inp : ParamsInput) (in_ : ParameterIn),
      inp.isSliceOrMap = false →
      (∀ f ∈ inp.fields, fieldOk f = true) →
      ¬ (inp.fields.map ParamField.name).Nodup →
      (∃ f ∈ inp.fields,
        (parseParametersIn st inp in_).2 =
          some ("parameter " ++ f.name ++ " in " ++ in_.str ++ " is already defined")) ∧
      st.parameters <+: (parseParametersIn st inp in_).1.parameters := by
  intro st inp in_ hsm hall hnd
  have hsome := paramsLoop_dup_isSome in_ inp.fields
    { st with schemas := collectAll st.schemas inp.outerDefs } hall hnd
  cases hl : paramsLoop in_ { st with schemas := collectAll st.schemas inp.outerDefs }
      inp.fields with
  | mk st2 e =>
    rw [hl] at hsome
    cases e with
    | none => simp at hsome
    | some m =>
      obtain ⟨f, hf, hm⟩ := paramsLoop_error_shape in_ inp.fields _ m hall (by rw [hl])
      have hpre := paramsLoop_prefix in_ inp.fields
        { st with schemas := collectAll st.schemas inp.outerDefs }
      rw [hl] at hpre
      constructor
      · exact ⟨f, hf, by simp [parseParametersIn, hsm, hl, hm]⟩
      · simp only [parseParametersIn, hsm, Bool.false_eq_true, if_false, hl]
        simpa using hpre

/-- Witness for C2 at a concrete input: two query fields named `x`. -/
theorem duplicate_parameter_aborts_witness :
    (∃ f ∈ [({ name := "x" } : ParamField), { name := "x" }],
      (parseParametersIn {} { fields := [{ name := "x" }, { name := "x" }] }
          ParameterIn.query).2 =
        some ("parameter " ++ f.name ++ " in " ++ ParameterIn.query.str ++
          " is already defined")) ∧
    ({} : ReqState).parameters <+:
      (parseParametersIn {} { fields := [{ name := "x" }, { name := "x" }] }
        ParameterIn.query).1.parameters :=
  duplicate_parameter_aborts {} { fields := [{ name := "x" }, { name := "x" }] }
    ParameterIn.query (by decide) (by decide) (by decide)

/-- C8: every parameter built for the path location carries
`required = true`, whatever the field's own annotations (including an
explicit `required:"false"` tag) say. -/
theorem path_parameters_forced_required :
    ∀ (f : ParamField) (reg : Registry) (p : Parameter) (reg2 : Registry),
      buildParameter ParameterIn.path f reg = .ok (p, reg2) →
      p.required = some true := by
  intro f reg p reg2 hb
  unfold buildParameter at hb
  by_cases hj : f.hasJSONTaggedFields = true
  · rw [if_pos hj] at hb
    split at hb
    · exact absurd hb (by simp)
    · obtain ⟨-, p2, -, hq⟩ := except_map_pair_ok ParameterIn.path f _ p reg2 _ hb
      rw [hq]
      simp [forcePathRequired]
  · rw [if_neg hj] at hb
    split at hb
    · exact absurd hb (by simp)
    · obtain ⟨-, p2, -, hq⟩ := except_map_pair_ok ParameterIn.path f _ p reg2 _ hb
      rw [hq]
      simp [forcePathRequired]

/-- Witness for C8 at a concrete input: a path field explicitly tagged
`required:"false"` still yields a required parameter. -/
theorem path_parameters_forced_required_witness :
    ∃ p reg2, buildParameter ParameterIn.path
        { name := "id", tagRequired := some false } [] = .ok (p, reg2) ∧
      p.required = some true :=
  ⟨_, _, rfl, path_parameters_forced_required
    { name := "id", tagRequired := some false } [] _ _ rfl⟩

/-- C7: a field whose own type carries JSON-body field tags produces a
parameter whose `content` holds a single entry under the JSON media
type wrapping the nested reflection's schema, and whose bare `schema`
is nil. -/
theorem json_object_parameter_uses_content :
    ∀ (in_ : ParameterIn) (f : ParamField) (reg : Registry) (js : SchemaOrRef),
      f.hasJSONTaggedFields = true →
      f.jsonReflect = .ok js →
      f.populateError = none →
      ∃ p, buildParameter in_ f reg = .ok (p, collectAll reg f.jsonDefs) ∧
        p.schema = none ∧ p.content = some [(mimeJSON, { schema := some js })] := by
  intro in_ f reg js hj hjr hpop
  unfold buildParameter
  rw [if_pos hj, hjr]
  simp only [applyTagFields, hpop, Except.map]
  refine ⟨_, rfl, ?_, ?_⟩
  · by_cases hp : in_ = ParameterIn.path <;> simp [forcePathRequired, hp]
  · by_cases hp : in_ = ParameterIn.path <;> simp [forcePathRequired, hp]

/-- Witness for C7 at a concrete input. -/
theorem json_object_parameter_uses_content_witness :
    ∃ p, buildParameter ParameterIn.query
        { name := "filter", hasJSONTaggedFields := true,
          jsonReflect := .ok { ref := some "#/components/schemas/Filter" },
          jsonDefs := [("Filter", { schema := some { type_ := some SType.object } })] }
        [] = .ok (p, collectAll []
          [("Filter", { schema := some { type_ := some SType.object } })]) ∧
      p.schema = none ∧
      p.content = some [(mimeJSON,
        { schema := some { ref := some "#/components/schemas/Filter" } })] :=
  json_object_parameter_uses_content ParameterIn.query
    { name := "filter", hasJSONTaggedFields := true,
      jsonReflect := .ok { ref := some "#/components/schemas/Filter" },
      jsonDefs := [("Filter", { schema := some { type_ := some SType.object } })] }
    [] { ref := some "#/components/schemas/Filter" } rfl rfl rfl

/-- C6: a file-upload field (a `*multipart.File` or
`*multipart.FileHeader` value) is forced to a binary-format string
schema and flips the upload flag; when a form-urlencoded request body
saw such a field, its content entry is keyed `multipart/form-data`
instead of `application/x-www-form-urlencoded`; with no file-upload
field the entry stays under `application/x-www-form-urlencoded`. -/
theorem form_file_upload_upgrades_to_multipart :
    (∀ v : BodyFieldVal, (v.isMultipartFile || v.isMultipartFileHeader) = true →
      (interceptType v).2 = true ∧ (interceptType v).1.format = some "binary" ∧
      SType.string ∈ (interceptType v).1.types) ∧
    (∀ (st : ReqState) (inp : BodyInput) (httpMethod : String)
        (mapping : List (String × String)) (res : BodyReflectResult),
      bodilessMethod httpMethod = false →
      inp.hasTaggedFields tagFormData = true →
      inp.reflect tagFormData mapping = .ok res →
      res.fieldValues.any (fun v => (interceptType v).2) = true →
      getItem (parseRequestBody st inp tagFormData mimeFormUrlencoded httpMethod
          mapping).1.requestBodyContent mimeMultipart = some { schema := some res.rootSchema } ∧
      (getItem st.requestBodyContent mimeFormUrlencoded = none →
        getItem (parseRequestBody st inp tagFormData mimeFormUrlencoded httpMethod
          mapping).1.requestBodyContent mimeFormUrlencoded = none)) ∧
    (∀ (st : ReqState) (inp : BodyInput) (httpMethod : String)
        (mapping : List (String × String)) (res : BodyReflectResult),
      bodilessMethod httpMethod = false →
      inp.hasTaggedFields tagFormData = true →
      inp.reflect tagFormData mapping = .ok res →
      res.fieldValues.any (fun v => (interceptType v).2) = false →
      getItem (parseRequestBody st inp tagFormData mimeFormUrlencoded httpMethod
          mapping).1.requestBodyContent mimeFormUrlencoded =
        some { schema := some res.rootSchema }) := by
  refine ⟨?_, ?_, ?_⟩
  · intro v hv
    unfold interceptType
    rw [if_pos hv]
    refine ⟨rfl, rfl, ?_⟩
    unfold JSchema.addType
    by_cases hm : SType.string ∈ v.schema.types
    · rw [if_pos hm]
      exact hm
    · rw [if_neg hm]
      simp
  · intro st inp httpMethod mapping res hbm ht hr hany
    have hany2 : ∃ x ∈ res.fieldValues, (interceptType x).2 = true := by
      simpa using hany
    have htag : ¬ tagFormData = tagJSON := by decide
    have hne : mimeFormUrlencoded ≠ mimeMultipart := by decide
    constructor
    · simp [parseRequestBody, hbm, ht, hr, hany2, htag, getItem_setItem_self]
    · intro hnone
      simp [parseRequestBody, hbm, ht, hr, hany2, htag,
        getItem_setItem_ne _ _ _ _ hne, hnone]
  · intro st inp httpMethod mapping res hbm ht hr hany
    have hany2 : ¬ ∃ x ∈ res.fieldValues, (interceptType x).2 = true := by
      simpa using hany
    have htag : ¬ tagFormData = tagJSON := by decide
    simp [parseRequestBody, hbm, ht, hr, hany2, htag, getItem_setItem_self]

/-- Witness for C6 at a concrete input. -/
theorem form_file_upload_upgrades_to_multipart_witness :
    ((interceptType { isMultipartFile := true }).2 = true ∧
      (interceptType { isMultipartFile := true }).1.format = some "binary" ∧
      SType.string ∈ (interceptType { isMultipartFile := true }).1.types) ∧
    (getItem (parseRequestBody {}
        { hasTaggedFields := fun t => decide (t = "formData"),
          reflect := fun _ _ => .ok { fieldValues := [{ isMultipartFile := true }] } }
        tagFormData mimeFormUrlencoded "POST" []).1.requestBodyContent mimeMultipart =
      some { schema := some ({} : BodyReflectResult).rootSchema } ∧
      (getItem ({} : ReqState).requestBodyContent mimeFormUrlencoded = none →
        getItem (parseRequestBody {}
          { hasTaggedFields := fun t => decide (t = "formData"),
            reflect := fun _ _ => .ok { fieldValues := [{ isMultipartFile := true }] } }
          tagFormData mimeFormUrlencoded "POST" []).1.requestBodyContent
          mimeFormUrlencoded = none)) :=
  ⟨form_file_upload_upgrades_to_multipart.1 { isMultipartFile := true } (by decide),
   form_file_upload_upgrades_to_multipart.2.1 {}
     { hasTaggedFields := fun t => decide (t = "formData"),
       reflect := fun _ _ => .ok { fieldValues := [{ isMultipartFile := true }] } }
     "POST" [] { fieldValues := [{ isMultipartFile := true }] }
     (by decide) (by decide) rfl (by decide)⟩

theorem joinAux_acc_infix (es : List (Option String)) :
    ∀ acc : String, acc.data <:+: (joinAux acc es).data := by
  induction es with
  | nil =>
    intro acc
    simp [joinAux]
  | cons e es ih =>
    intro acc
    cases e with
    | none => simpa [joinAux] using ih acc
    | some m =>
      have h1 : acc.data <:+: (acc ++ ", " ++ m).data := by
        refine ⟨[], (", " ++ m).data, ?_⟩
        simp [String.data_append]
      exact List.IsInfix.trans h1 (by simpa [joinAux] using ih (acc ++ ", " ++ m))

theorem joinAux_mem_infix (es : List (Option String)) :
    ∀ (acc : String) (m : String), some m ∈ es →
      (',' :: ' ' :: m.data) <:+: (joinAux acc es).data := by
  induction es with
  | nil =>
    intro acc m hm
    simp at hm
  | cons e es ih =>
    intro acc m hm
    rcases List.mem_cons.mp hm with he | hes
    · rw [← he]
      have h1 : (',' :: ' ' :: m.data) <:+: (acc ++ ", " ++ m).data := by
        refine ⟨acc.data, [], ?_⟩
        simp [String.data_append]
      exact List.IsInfix.trans h1 (by simpa [joinAux] using joinAux_acc_infix es (acc ++ ", " ++ m))
    · cases e with
      | none => simpa [joinAux] using ih acc m hes
      | some m2 => simpa [joinAux] using ih (acc ++ ", " ++ m2) m hes

theorem infix_drop_two (s t m : List Char) :
    m <:+: ((s ++ (',' :: ' ' :: (m ++ t))).drop 2) := by
  match s with
  | [] =>
    simp only [List.nil_append, List.drop_succ_cons, List.drop_zero]
    exact ⟨[], t, by simp⟩
  | [a] =>
    simp only [List.cons_append, List.nil_append, List.drop_succ_cons, List.drop_zero]
    exact ⟨[' '], t, by simp⟩
  | a :: b :: s2 =>
    simp only [List.cons_append, List.drop_succ_cons, List.drop_zero]
    exact ⟨s2 ++ [',', ' '], t, by simp⟩

theorem joinErrors_mem_infix (errs : List (Option String)) (m : String)
    (hm : some m ∈ errs) :
    ∃ j, joinErrors errs = some j ∧ m.data <:+: j.data := by
  have hinf := joinAux_mem_infix errs "" m hm
  have hne : ¬ joinAux "" errs = "" := by
    intro h0
    rw [h0] at hinf
    have := List.eq_nil_of_infix_nil hinf
    simp at this
  refine ⟨String.mk ((joinAux "" errs).data.drop 2), by simp [joinErrors, hne], ?_⟩
  obtain ⟨sl, tl, hst⟩ := hinf
  have hshape : (joinAux "" errs).data = sl ++ (',' :: ' ' :: (m.data ++ tl)) := by
    rw [← hst]
    simp
  rw [hshape]
  exact infix_drop_two sl tl m.data

theorem ensureResponseContentType_description (resp : Response) (ct : String) :
    (ensureResponseContentType resp ct).description = resp.description := by
  unfold ensureResponseContentType
  split <;> rfl

theorem ensureResponseContentType_absent (resp : Response) (ct : String)
    (h : getItem resp.content ct = none) :
    (ensureResponseContentType resp ct).content =
      setItem resp.content ct { schema := some { schema := some {} } } := by
  unfold ensureResponseContentType
  rw [h]

theorem ensureResponseContentType_present (resp : Response) (ct : String) (mt : MediaType)
    (h : getItem resp.content ct = some mt) :
    ensureResponseContentType resp ct = resp := by
  unfold ensureResponseContentType
  rw [h]

theorem parseJSONResponse_skip (schemas : Registry) (resp : Response)
    (out : OutputReflection) (ct : String) (js : JSchema)
    (hp : out.plain = .ok js) (hj : hasJSONBodySchema js = false) :
    parseJSONResponse schemas resp out ct = .ok (schemas, resp) := by
  simp [parseJSONResponse, hp, hj]

theorem parseJSONResponse_spec (schemas : Registry) (resp : Response)
    (out : OutputReflection) (ct : String) (br : RespBodyReflection)
    (hb : out.bodyReflect = .ok br) (hd : br.description = none) :
    ∃ s2 r2, parseJSONResponse schemas resp out ct = .ok (s2, r2) ∧
      r2.description = resp.description ∧ r2.headers = resp.headers := by
  simp only [parseJSONResponse]
  split
  · exact ⟨schemas, resp, rfl, rfl, rfl⟩
  · rw [hb]
    simp only [hd]
    exact ⟨_, _, rfl, rfl, rfl⟩

theorem parseJSONResponse_body (schemas : Registry) (out : OutputReflection) (ct : String)
    (js : JSchema) (br : RespBodyReflection)
    (hp : out.plain = .ok js) (hj : hasJSONBodySchema js = true)
    (hb : out.bodyReflect = .ok br) :
    ∃ r2, parseJSONResponse schemas {} out ct = .ok (collectAll schemas br.definitions, r2) ∧
      r2.content = [(if ct = "" then mimeJSON else ct,
        { schema := some (stripNullable br.rootSchema) })] ∧
      r2.headers = [] := by
  have hskip : (match out.plain with
    | .ok js => !(hasJSONBodySchema js)
    | .error _ => false) = false := by
    rw [hp]
    simp [hj]
  simp only [parseJSONResponse, hskip, Bool.false_eq_true, if_false, hb]
  cases hbd : br.description with
  | none =>
    refine ⟨_, rfl, ?_, rfl⟩
    simp [setItem]
  | some d =>
    refine ⟨_, rfl, ?_, rfl⟩
    simp [setItem]

theorem parseResponseHeader_spec (resp : Response) (out : OutputReflection)
    (hr : RespHeaderReflection) (hh : out.headerReflect = .ok hr) :
    ∃ r2, parseResponseHeader resp out = .ok r2 ∧ r2.content = resp.content ∧
      (hr.description = none → r2.description = resp.description) := by
  simp only [parseResponseHeader, hh]
  cases hrd : hr.description with
  | none => exact ⟨_, rfl, rfl, fun _ => rfl⟩
  | some d =>
    by_cases hre : resp.description = ""
    · exact ⟨_, congrArg Except.ok (if_pos hre), rfl, fun hcon => Option.noConfusion hcon⟩
    · exact ⟨_, congrArg Except.ok (if_neg hre), rfl, fun _ => rfl⟩

theorem setupResponse_eval (schemas s2 : Registry) (responses : List (String × Response))
    (oc : OperationContext) (out : OutputReflection) (r2 r3 : Response)
    (hout : oc.output = some out)
    (hpj : parseJSONResponse schemas {} out (splitBeforeSemicolon oc.respContentType) =
      .ok (s2, r2))
    (hph : parseResponseHeader r2 out = .ok r3) :
    SetupResponse schemas responses oc = .ok (s2, setItem responses (toString oc.httpStatus)
      (if (if splitBeforeSemicolon oc.respContentType ≠ "" then
            ensureResponseContentType r3 (splitBeforeSemicolon oc.respContentType)
          else r3).description = "" then
        { (if splitBeforeSemicolon oc.respContentType ≠ "" then
            ensureResponseContentType r3 (splitBeforeSemicolon oc.respContentType)
          else r3) with description := statusText oc.httpStatus }
      else
        (if splitBeforeSemicolon oc.respContentType ≠ "" then
          ensureResponseContentType r3 (splitBeforeSemicolon oc.respContentType)
        else r3))) := by
  simp only [SetupResponse, hout, hpj, hph]

/-- C5: with no output type, `SetupResponse` stores a response with no
body content whose description is the standard status text; and in
general, whenever neither the body schema nor the header schema
supplied a description, the stored response's description falls back to
the standard status text. -/
theorem response_description_falls_back_to_status_text :
    (∀ (schemas : Registry) (responses : List (String × Response)) (status : Nat) (ct : String),
      SetupResponse schemas responses
          { output := none, httpStatus := status, respContentType := ct } =
        .ok (schemas, setItem responses (toString status)
          { description := statusText status })) ∧
    (∀ (schemas : Registry) (responses : List (String × Response)) (oc : OperationContext)
        (out : OutputReflection) (br : RespBodyReflection) (hr : RespHeaderReflection),
      oc.output = some out → out.bodyReflect = .ok br → br.description = none →
      out.headerReflect = .ok hr → hr.description = none →
      ∃ schemas2 responses2 resp,
        SetupResponse schemas responses oc = .ok (schemas2, responses2) ∧
        getItem responses2 (toString oc.httpStatus) = some resp ∧
        resp.description = statusText oc.httpStatus) := by
  constructor
  · intro schemas responses status ct
    rfl
  · intro schemas responses oc out br hr hout hbr hbd hhr hrd
    obtain ⟨s2, r2, hpj, hdesc2, hhead2⟩ := parseJSONResponse_spec schemas {} out
      (splitBeforeSemicolon oc.respContentType) br hbr hbd
    obtain ⟨r3, hph, hcont3, hdesc3⟩ := parseResponseHeader_spec r2 out hr hhr
    have hd2 : r2.description = "" := hdesc2
    have hd3 : r3.description = "" := (hdesc3 hrd).trans hd2
    have heval := setupResponse_eval schemas s2 responses oc out r2 r3 hout hpj hph
    have hd4 : (if splitBeforeSemicolon oc.respContentType ≠ "" then
        ensureResponseContentType r3 (splitBeforeSemicolon oc.respContentType)
      else r3).description = "" := by
      split
      · rw [ensureResponseContentType_description]
        exact hd3
      · exact hd3
    rw [if_pos hd4] at heval
    exact ⟨s2, _, _, heval, getItem_setItem_self _ _ _, rfl⟩

/-- Witness for C5 at concrete inputs: status 204 with a trivial output
type. -/
theorem response_description_falls_back_to_status_text_witness :
    ∃ schemas2 responses2 resp,
      SetupResponse [] [] { output := some {}, httpStatus := 204 } =
        .ok (schemas2, responses2) ∧
      getItem responses2 (toString (204 : Nat)) = some resp ∧
      resp.description = statusText 204 :=
  response_description_falls_back_to_status_text.2 [] []
    { output := some {}, httpStatus := 204 } {} {} {} rfl rfl rfl rfl rfl

/-- C9 counterexample: the claim that an explicitly requested response
content type is still advertised when the output type is absent is
false — with `Output = nil` the whole content-type step is skipped and
the stored response has an empty content map, even though
`"text/csv"` was requested. -/
theorem output_absent_content_not_advertised_counterexample :
    SetupResponse [] [] { output := none, httpStatus := 200, respContentType := "text/csv" } =
      .ok ([], [("200", { description := "OK" })]) ∧
    ({ description := "OK" } : Response).content = [] :=
  ⟨rfl, rfl⟩

/-- C9 (amended): when the output type is present, its schema is
trivial and a response content type was requested, the built response
still advertises that content type with an empty untyped schema; when
the output type is absent, however, no content entry is created at all
and the requested content type is dropped. -/
theorem ensure_content_type_requires_output :
    (∀ (schemas : Registry) (responses : List (String × Response)) (oc : OperationContext),
      oc.output = none →
      SetupResponse schemas responses oc =
        .ok (schemas, setItem responses (toString oc.httpStatus)
          { description := statusText oc.httpStatus })) ∧
    (∀ (schemas : Registry) (responses : List (String × Response)) (oc : OperationContext)
        (out : OutputReflection) (js : JSchema) (hr : RespHeaderReflection),
      oc.output = some out →
      out.plain = .ok js → hasJSONBodySchema js = false →
      out.headerReflect = .ok hr →
      splitBeforeSemicolon oc.respContentType ≠ "" →
      ∃ responses2 resp,
        SetupResponse schemas responses oc = .ok (schemas, responses2) ∧
        getItem responses2 (toString oc.httpStatus) = some resp ∧
        getItem resp.content (splitBeforeSemicolon oc.respContentType) =
          some { schema := some { schema := some {} } }) := by
  constructor
  · intro schemas responses oc hout
    simp [SetupResponse, hout]
  · intro schemas responses oc out js hr hout hpl hjs hhr hct
    have hpj := parseJSONResponse_skip schemas {} out
      (splitBeforeSemicolon oc.respContentType) js hpl hjs
    obtain ⟨r3, hph, hcont3, -⟩ := parseResponseHeader_spec {} out hr hhr
    have heval := setupResponse_eval schemas schemas responses oc out {} r3 hout hpj hph
    rw [if_pos hct] at heval
    have hcnone : getItem r3.content (splitBeforeSemicolon oc.respContentType) = none := by
      rw [hcont3]
      rfl
    have hcont4 := ensureResponseContentType_absent r3
      (splitBeforeSemicolon oc.respContentType) hcnone
    refine ⟨_, _, heval, getItem_setItem_self _ _ _, ?_⟩
    split
    · show getItem (ensureResponseContentType r3
          (splitBeforeSemicolon oc.respContentType)).content
          (splitBeforeSemicolon oc.respContentType) =
        some { schema := some { schema := some {} } }
      rw [hcont4]
      exact getItem_setItem_self _ _ _
    · rw [hcont4]
      exact getItem_setItem_self _ _ _

/-- Witness for the amended C9 theorem at concrete inputs. -/
theorem ensure_content_type_requires_output_witness :
    ∃ responses2 resp,
      SetupResponse [] []
          { output := some {}, httpStatus := 200, respContentType := "text/csv" } =
        .ok ([], responses2) ∧
      getItem responses2 (toString (200 : Nat)) = some resp ∧
      getItem resp.content (splitBeforeSemicolon "text/csv") =
        some { schema := some { schema := some {} } } :=
  ensure_content_type_requires_output.2 [] []
    { output := some {}, httpStatus := 200, respContentType := "text/csv" }
    {} {} {} rfl rfl rfl rfl (by decide)

theorem takeWhile_until_semicolon (l r : List Char) (h : ';' ∉ l) :
    (l ++ ';' :: r).takeWhile (fun c => decide (c ≠ ';')) = l := by
  induction l with
  | nil =>
    rw [List.nil_append]
    exact List.takeWhile_cons_of_neg (by simp)
  | cons c cs ih =>
    have hc : c ≠ ';' := fun hh => h (by rw [hh]; exact List.mem_cons_self _ _)
    have hmem : ';' ∉ cs := fun hm => h (List.mem_cons_of_mem _ hm)
    rw [List.cons_append, List.takeWhile_cons_of_pos (by simp [hc]), ih hmem]

theorem splitBeforeSemicolon_append (p rest : String) (h : ';' ∉ p.data) :
    splitBeforeSemicolon (p ++ ";" ++ rest) = p := by
  unfold splitBeforeSemicolon
  have hd : (p ++ ";" ++ rest).data = p.data ++ ';' :: rest.data := by
    rw [String.data_append, String.data_append, List.append_assoc]
    rfl
  rw [hd, takeWhile_until_semicolon p.data rest.data h]

theorem string_ne_append_semicolon (p rest : String) : p ≠ p ++ ";" ++ rest := by
  intro h
  have hlen := congrArg (fun s : String => s.data.length) h
  simp only [String.data_append, List.length_append] at hlen
  have hone : (";" : String).data.length = 1 := rfl
  rw [hone] at hlen
  omega

/-- C10: with an output type present, only the portion of the requested
response content type before the first `';'` is used as the key of the
response content map: the stored response's content is keyed by that
prefix alone and the full requested string (with its media-type
parameters) is not a key. -/
theorem response_content_key_drops_parameters :
    ∀ (schemas : Registry) (responses : List (String × Response)) (oc : OperationContext)
      (out : OutputReflection) (js : JSchema) (br : RespBodyReflection)
      (hr : RespHeaderReflection) (p rest : String),
      oc.output = some out →
      oc.respContentType = p ++ ";" ++ rest →
      ';' ∉ p.data →
      p ≠ "" →
      out.plain = .ok js → hasJSONBodySchema js = true →
      out.bodyReflect = .ok br → out.headerReflect = .ok hr →
      ∃ responses2 resp,
        SetupResponse schemas responses oc =
          .ok (collectAll schemas br.definitions, responses2) ∧
        getItem responses2 (toString oc.httpStatus) = some resp ∧
        resp.content.map Prod.fst = [p] ∧
        getItem resp.content oc.respContentType = none := by
  intro schemas responses oc out js br hr p rest hout hctp hsemi hpne hpl hjs hbr hhr
  have hsplit : splitBeforeSemicolon oc.respContentType = p := by
    rw [hctp]
    exact splitBeforeSemicolon_append p rest hsemi
  obtain ⟨r2, hpj, hcont2, hhead2⟩ := parseJSONResponse_body schemas out
    (splitBeforeSemicolon oc.respContentType) js br hpl hjs hbr
  obtain ⟨r3, hph, hcont3, -⟩ := parseResponseHeader_spec r2 out hr hhr
  have heval := setupResponse_eval schemas (collectAll schemas br.definitions) responses oc
    out r2 r3 hout hpj hph
  rw [hsplit] at heval
  rw [hsplit, if_neg hpne] at hcont2
  have hgot : getItem r3.content p =
      some { schema := some (stripNullable br.rootSchema) } := by
    rw [hcont3, hcont2]
    simp [getItem]
  have hens := ensureResponseContentType_present r3 p _ hgot
  rw [if_pos hpne, hens] at heval
  refine ⟨_, _, heval, getItem_setItem_self _ _ _, ?_, ?_⟩
  · split
    · show r3.content.map Prod.fst = [p]
      rw [hcont3, hcont2]
      rfl
    · rw [hcont3, hcont2]
      rfl
  · have hne := string_ne_append_semicolon p rest
    split
    · show getItem r3.content oc.respContentType = none
      rw [hcont3, hcont2, hctp]
      simp [getItem, hne]
    · rw [hcont3, hcont2, hctp]
      simp [getItem, hne]

/-- Witness for C10 at concrete inputs: the requested content type
`application/json; charset=utf-8` is advertised as
`application/json`. -/
theorem response_content_key_drops_parameters_witness :
    ∃ responses2 resp,
      SetupResponse [] []
          { output := some { plain := .ok { types := [SType.string] } },
            httpStatus := 200,
            respContentType := "application/json; charset=utf-8" } =
        .ok (collectAll [] ({} : RespBodyReflection).definitions, responses2) ∧
      getItem responses2 (toString (200 : Nat)) = some resp ∧
      resp.content.map Prod.fst = ["application/json"] ∧
      getItem resp.content "application/json; charset=utf-8" = none :=
  response_content_key_drops_parameters [] []
    { output := some { plain := .ok { types := [SType.string] } },
      httpStatus := 200,
      respContentType := "application/json; charset=utf-8" }
    { plain := .ok { types := [SType.string] } } { types := [SType.string] } {} {}
    "application/json" " charset=utf-8"
    rfl (by decide) (by decide) (by decide) rfl (by decide) rfl rfl

/-- C4 counterexample: the claim that request-body failures are
returned individually and kept out of the combined parameter error is
false — `SetupRequest` passes the two request-body results to
`joinErrors` together with the four parameter-extraction results, so a
query duplicate error and a JSON body reflection error come back as one
merged error, not as the body error alone. -/
theorem setupRequest_merges_body_errors_counterexample :
    (SetupRequest {}
      { paramsQuery := { fields := [{ name := "x" }, { name := "x" }] },
        body := { hasTaggedFields := fun t => decide (t = "json"),
                  reflect := fun _ _ => .error "boom" },
        httpMethod := "POST" }).2 =
      some "parameter x in query is already defined, boom" ∧
    (SetupRequest {}
      { paramsQuery := { fields := [{ name := "x" }, { name := "x" }] },
        body := { hasTaggedFields := fun t => decide (t = "json"),
                  reflect := fun _ _ => .error "boom" },
        httpMethod := "POST" }).2 ≠ some "boom" := by
  exact ⟨by decide, by decide⟩

/-- C4 (amended): `SetupRequest` joins all non-nil errors from all six
builder calls — the four per-location parameter extractions AND both
request-body builds — into one combined error, so the caller sees every
failure at once; each failing phase's message appears inside the single
combined error (request-body failures included, rather than being
returned individually); only response building is reported separately. -/
theorem setupRequest_joins_all_phase_errors :
    ∀ (st : ReqState) (oc : OperationContext) (m : String),
      some m ∈ (setupRequestRun st oc).2 →
      ∃ j, (SetupRequest st oc).2 = some j ∧ m.data <:+: j.data := by
  intro st oc m hm
  exact joinErrors_mem_infix (setupRequestRun st oc).2 m hm

/-- Witness for the amended C4 theorem at a concrete input. -/
theorem setupRequest_joins_all_phase_errors_witness :
    ∃ j, (SetupRequest {}
        { body := { hasTaggedFields := fun t => decide (t = "json"),
                    reflect := fun _ _ => .error "boom" },
          httpMethod := "POST" }).2 = some j ∧
      ("boom").data <:+: j.data :=
  setupRequest_joins_all_phase_errors {}
    { body := { hasTaggedFields := fun t => decide (t = "json"),
                reflect := fun _ _ => .error "boom" },
      httpMethod := "POST" } "boom" (by decide)

end OpenAPI3
